import Mathlib

set_option linter.unusedVariables false

/-!
Shallow embedding of the CSE287 ray-tracer core (Plane.cpp, RayTracer.cpp,
LightSource.h).  Scalars (`double` in the source) are modelled as real
numbers; the `INFINITY` sentinel stored in `HitRecord.t` and returned by
`getLightDistance` is modelled with `EReal` (`⊤` = `+INFINITY`).
-/

noncomputable section

/-- 3-component vector of doubles (`glm::dvec3`). -/
@[ext]
structure Dvec3 where
  x : ℝ
  y : ℝ
  z : ℝ


namespace Dvec3

def add (a b : Dvec3) : Dvec3 := ⟨a.x + b.x, a.y + b.y, a.z + b.z⟩

def sub (a b : Dvec3) : Dvec3 := ⟨a.x - b.x, a.y - b.y, a.z - b.z⟩

def neg (a : Dvec3) : Dvec3 := ⟨-a.x, -a.y, -a.z⟩

def smul (s : ℝ) (a : Dvec3) : Dvec3 := ⟨s * a.x, s * a.y, s * a.z⟩

instance : Add Dvec3 := ⟨add⟩

instance : Sub Dvec3 := ⟨sub⟩

instance : Neg Dvec3 := ⟨neg⟩

instance : SMul ℝ Dvec3 := ⟨smul⟩

instance : Zero Dvec3 := ⟨⟨0, 0, 0⟩⟩

@[simp] theorem add_def (a b : Dvec3) :
    a + b = ⟨a.x + b.x, a.y + b.y, a.z + b.z⟩ := rfl

@[simp] theorem sub_def (a b : Dvec3) :
    a - b = ⟨a.x - b.x, a.y - b.y, a.z - b.z⟩ := rfl

@[simp] theorem neg_def (a : Dvec3) : -a = ⟨-a.x, -a.y, -a.z⟩ := rfl

@[simp] theorem smul_def (s : ℝ) (a : Dvec3) :
    s • a = ⟨s * a.x, s * a.y, s * a.z⟩ := rfl

@[simp] theorem zero_def : (0 : Dvec3) = ⟨0, 0, 0⟩ := rfl

end Dvec3

/-- `glm::dot` on `dvec3`. -/
def dot (a b : Dvec3) : ℝ := a.x * b.x + a.y * b.y + a.z * b.z

/-- `glm::cross` on `dvec3`. -/
def cross (a b : Dvec3) : Dvec3 :=
  ⟨a.y * b.z - a.z * b.y, a.z * b.x - a.x * b.z, a.x * b.y - a.y * b.x⟩

/-- `glm::length` on `dvec3`: Euclidean norm. -/
def glmLength (a : Dvec3) : ℝ := Real.sqrt (dot a a)

/-- `glm::normalize` on `dvec3`: `v / length(v)`. -/
def glmNormalize (a : Dvec3) : Dvec3 := (glmLength a)⁻¹ • a

/-- `glm::distance` on `dvec3`: `length(p0 - p1)`. -/
def glmDistance (a b : Dvec3) : ℝ := glmLength (a - b)

/-- 2-component vector of doubles (`glm::dvec2`). -/
@[ext]
structure Dvec2 where
  x : ℝ
  y : ℝ


/-- Modelled from the spec: the `color` type (`Defines.h` is not in the
sources).  Per §6 it supports component-wise addition and scalar
multiplication; we model it as an RGB triple of doubles. -/
@[ext]
structure RGBColor where
  r : ℝ
  g : ℝ
  b : ℝ


namespace RGBColor

instance : Add RGBColor := ⟨fun a b => ⟨a.r + b.r, a.g + b.g, a.b + b.b⟩⟩

instance : SMul ℝ RGBColor := ⟨fun s a => ⟨s * a.r, s * a.g, s * a.b⟩⟩

@[simp] theorem addColor_def (a b : RGBColor) :
    a + b = ⟨a.r + b.r, a.g + b.g, a.b + b.b⟩ := rfl

@[simp] theorem smulColor_def (s : ℝ) (a : RGBColor) :
    s • a = ⟨s * a.r, s * a.g, s * a.b⟩ := rfl

end RGBColor

/-- The `BLACK` color constant. -/
def BLACK : RGBColor := ⟨0, 0, 0⟩

/-- The `WHITE` color constant. -/
def WHITE : RGBColor := ⟨1, 1, 1⟩

/-- Modelled from the spec: `Material` (`Material.h` is not in the sources).
Per §3 it is a value type exposing at least an emissive color and a
diffuse/specular color; `traceRay` reads it through `getEmisive()`. -/
@[ext]
structure Material where
  emisive : RGBColor
  diffuse : RGBColor


/-- `Material::getEmisive()` accessor. -/
def Material.getEmisive (m : Material) : RGBColor := m.emisive

/-- `Ray`: origin and direction (`Ray.h` fields used by the sources:
`origin`, `direct`). -/
@[ext]
structure Ray where
  origin : Dvec3
  direct : Dvec3


/-- Modelled from the spec: `HitRecord` (`HitRecord.h` is not in the
sources).  Per §3 it carries `t` (with `+infinity` the no-hit sentinel,
here `⊤ : EReal`), the intercept point, the surface normal, a copied
material and a `uv` coordinate defaulting to the center `(0.5, 0.5)`. -/
structure HitRecord where
  t : EReal := ⊤
  interceptPoint : Dvec3 := 0
  surfaceNormal : Dvec3 := 0
  material : Material := ⟨BLACK, BLACK⟩
  uv : Dvec2 := ⟨0.5, 0.5⟩

/-- The default-constructed `HitRecord` (all fields at their defaults). -/
def defaultHitRecord : HitRecord := {}

/-- `Plane` surface data: point `a` and (constructor-normalized) normal
`n`, plus the material inherited from `ImplicitSurface`. -/
structure Plane where
  a : Dvec3
  n : Dvec3
  material : Material

/-- `Plane::findIntersect` (Plane.cpp lines 19–37): registers a hit only
when `denominator = dot(ray.direct, n) < 0`; otherwise `t = INFINITY`. -/
def Plane.findIntersect (p : Plane) (ray : Ray) : HitRecord :=
  let denominator := dot ray.direct p.n
  if denominator < 0 then
    let t := dot (p.a - ray.origin) p.n / denominator
    { defaultHitRecord with
        surfaceNormal := p.n
        interceptPoint := ray.origin + t • ray.direct
        t := (t : EReal)
        material := p.material }
  else
    { defaultHitRecord with t := ⊤ }

/-- Fields shared by all light variants (LightSource.h lines 40–50):
ambient/diffuse/specular colors and the `enabled` flag. -/
structure LightData where
  ambientLightColor : RGBColor := BLACK
  diffuseLightColor : RGBColor := BLACK
  specularLightColor : RGBColor := WHITE
  enabled : Bool := true

/-- The `LightSource` hierarchy (LightSource.h): base (ambient-only),
`PositionalLight`, `DirectionalLight`, `SpotLight` (extends Positional). -/
inductive LightSource
  | base (data : LightData)
  | positional (data : LightData) (lightPosition : Dvec3)
  | directional (data : LightData) (lightDirection : Dvec3)
  | spot (data : LightData) (lightPosition spotDirection : Dvec3)
      (cutOffCosineRadians : ℝ)

/-- `PositionalLight::getLocalIllumination` (LightSource.h lines 90–95):
returns `BLACK` unconditionally. -/
def positionalGetLocalIllumination (lightPosition : Dvec3)
    (eyeVector position normal : Dvec3) (material : Material)
    (uv : Dvec2) : RGBColor :=
  BLACK

/-- `SpotLight::getLocalIllumination` (LightSource.h lines 203–214):
inside the cone (strict `>` against the cutoff cosine) scales the
`PositionalLight` illumination by a linear falloff; otherwise `BLACK`. -/
def spotGetLocalIllumination (lightPosition spotDirection : Dvec3)
    (cutOffCosineRadians : ℝ) (eyeVector position normal : Dvec3)
    (material : Material) (uv : Dvec2) : RGBColor :=
  let negLightVec := -(glmNormalize (lightPosition - position))
  let fallOffFactor :=
    1 - (1 - dot negLightVec spotDirection) / (1 - cutOffCosineRadians)
  if dot negLightVec spotDirection > cutOffCosineRadians then
    fallOffFactor •
      positionalGetLocalIllumination lightPosition eyeVector position
        normal material uv
  else BLACK

/-- Virtual dispatch of `getLocalIllumination` over the hierarchy: the
base and `DirectionalLight` overrides return `BLACK`
(LightSource.h lines 27–33 and 145–150). -/
def LightSource.getLocalIllumination :
    LightSource → Dvec3 → Dvec3 → Dvec3 → Material → Dvec2 → RGBColor
  | .base _, _, _, _, _, _ => BLACK
  | .positional _ lp, eye, pos, n, m, uv =>
      positionalGetLocalIllumination lp eye pos n m uv
  | .directional _ _, _, _, _, _, _ => BLACK
  | .spot _ lp sd cutoff, eye, pos, n, m, uv =>
      spotGetLocalIllumination lp sd cutoff eye pos n m uv

/-- Virtual dispatch of `getLightVector`: base returns the zero vector
(LightSource.h line 35), `PositionalLight` (inherited by `SpotLight`)
returns `normalize(lightPosition - position)` (lines 98–102),
`DirectionalLight` returns the stored direction (lines 152–156). -/
def LightSource.getLightVector : LightSource → Dvec3 → Dvec3
  | .base _, _ => ⟨0.0, 0.0, 0.0⟩
  | .positional _ lp, pos => glmNormalize (lp - pos)
  | .directional _ dir, _ => dir
  | .spot _ lp _ _, pos => glmNormalize (lp - pos)

/-- Virtual dispatch of `getLightDistance`: base returns `0.0`
(LightSource.h line 37), `PositionalLight` (inherited by `SpotLight`)
returns `glm::distance(lightPosition, position)` (lines 104–108),
`DirectionalLight` returns `INFINITY` (lines 158–162). -/
def LightSource.getLightDistance : LightSource → Dvec3 → EReal
  | .base _, _ => ((0 : ℝ) : EReal)
  | .positional _ lp, pos => ((glmDistance lp pos : ℝ) : EReal)
  | .directional _ _, _ => ⊤
  | .spot _ lp _ _, pos => ((glmDistance lp pos : ℝ) : EReal)

/-- Copy of a light with its `enabled` flag replaced — used to compare two
invocations identical except for `enabled`. -/
def LightSource.setEnabled : LightSource → Bool → LightSource
  | .base d, b => .base { d with enabled := b }
  | .positional d lp, b => .positional { d with enabled := b } lp
  | .directional d dir, b => .directional { d with enabled := b } dir
  | .spot d lp sd c, b => .spot { d with enabled := b } lp sd c

/-- The polymorphic `Surface` capability: `findIntersect(Ray) -> HitRecord`
(virtual dispatch through the `Surface` base class). -/
structure Surface where
  findIntersect : Ray → HitRecord

/-- A `Plane` used through the `Surface` interface. -/
def Plane.toSurface (p : Plane) : Surface := ⟨p.findIntersect⟩

/-- The `RayTracer` state read by the evaluated path of
`traceRay`/`findClosestIntersection`: the ordered surface and light
collections and the configured background color. -/
structure RayTracer where
  surfaces : List Surface
  lights : List LightSource
  defaultColor : RGBColor

/-- `RayTracer::findClosestIntersection` (RayTracer.cpp lines 132–147):
linear scan keeping the record with strictly smaller `t`, starting from a
default record with `t = INFINITY`. -/
def findClosestIntersection (rt : RayTracer) (ray : Ray) : HitRecord :=
  rt.surfaces.foldl
    (fun closestHit s =>
      let temp := s.findIntersect ray
      if temp.t < closestHit.t then temp else closestHit)
    defaultHitRecord

/-- `RayTracer::traceRay` (RayTracer.cpp lines 84–126): if the closest hit
has `t < INFINITY`, accumulate each light's local illumination onto the
material's emissive color; otherwise return `defaultColor`.  The recursion
level is accepted but unused on the evaluated path. -/
def traceRay (rt : RayTracer) (ray : Ray) (recursionLevel : ℤ) : RGBColor :=
  let closesHit := findClosestIntersection rt ray
  if closesHit.t < (⊤ : EReal) then
    rt.lights.foldl
      (fun totalColor light =>
        totalColor +
          light.getLocalIllumination (-ray.direct) closesHit.interceptPoint
            closesHit.surfaceNormal closesHit.material closesHit.uv)
      closesHit.material.getEmisive
  else
    rt.defaultColor

/-- The camera frame fields set by `setCameraFrame`. -/
structure CameraFrame where
  eye : Dvec3
  w : Dvec3
  u : Dvec3
  v : Dvec3

/-- `RayTracer::setCameraFrame` (RayTracer.cpp lines 11–19):
`w = normalize(-viewingDirection)`, `u = normalize(cross(up, w))`,
`v = normalize(cross(w, u))`. -/
def setCameraFrame (viewPosition viewingDirection up : Dvec3) : CameraFrame :=
  let w := glmNormalize (-viewingDirection)
  let u := glmNormalize (cross up w)
  let v := glmNormalize (cross w u)
  ⟨viewPosition, w, u, v⟩

/-! ### Vector algebra lemmas -/

theorem dot_comm (a b : Dvec3) : dot a b = dot b a := by
  simp [dot]; ring

theorem dot_smul_left (s : ℝ) (a b : Dvec3) :
    dot (s • a) b = s * dot a b := by
  simp [dot]; ring

theorem dot_smul_right (s : ℝ) (a b : Dvec3) :
    dot a (s • b) = s * dot a b := by
  simp [dot]; ring

theorem dot_self_nonneg (a : Dvec3) : 0 ≤ dot a a := by
  simp only [dot]
  nlinarith [sq_nonneg a.x, sq_nonneg a.y, sq_nonneg a.z]

theorem dot_self_eq_zero_iff (a : Dvec3) : dot a a = 0 ↔ a = 0 := by
  constructor
  · intro h
    have h' : a.x * a.x + a.y * a.y + a.z * a.z = 0 := by simpa [dot] using h
    have hx : a.x = 0 := by nlinarith [sq_nonneg a.x, sq_nonneg a.y, sq_nonneg a.z]
    have hy : a.y = 0 := by nlinarith [sq_nonneg a.x, sq_nonneg a.y, sq_nonneg a.z]
    have hz : a.z = 0 := by nlinarith [sq_nonneg a.x, sq_nonneg a.y, sq_nonneg a.z]
    ext <;> simp [hx, hy, hz]
  · intro h; subst h; simp [dot]

theorem dot_self_pos (a : Dvec3) (h : a ≠ 0) : 0 < dot a a :=
  lt_of_le_of_ne (dot_self_nonneg a)
    (fun h0 => h ((dot_self_eq_zero_iff a).mp h0.symm))

theorem cross_smul_right (s : ℝ) (a b : Dvec3) :
    cross a (s • b) = s • cross a b := by
  ext <;> simp [cross] <;> ring

theorem cross_neg_right (a b : Dvec3) : cross a (-b) = -cross a b := by
  ext <;> simp [cross] <;> ring

theorem cross_zero_right (a : Dvec3) : cross a 0 = 0 := by
  simp [cross]

theorem dot_cross_left (a b : Dvec3) : dot a (cross a b) = 0 := by
  simp [dot, cross]; ring

theorem dot_cross_right (a b : Dvec3) : dot b (cross a b) = 0 := by
  simp [dot, cross]; ring

theorem lagrangeIdentity (a b : Dvec3) : dot (cross a b) (cross a b) =
    dot a a * dot b b - dot a b * dot a b := by
  simp [dot, cross]; ring

theorem cross_cross_same (a b : Dvec3) :
    cross a (cross b a) = dot a a • b - dot a b • a := by
  ext <;> simp [dot, cross] <;> ring

theorem smul_ne_zero_vec (s : ℝ) (a : Dvec3) (hs : s ≠ 0) (ha : a ≠ 0) :
    s • a ≠ 0 := by
  intro h
  apply ha
  have hx := congrArg Dvec3.x h
  have hy := congrArg Dvec3.y h
  have hz := congrArg Dvec3.z h
  simp [mul_eq_zero, hs] at hx hy hz
  ext <;> simp [hx, hy, hz]

theorem one_smul_vec (a : Dvec3) : (1 : ℝ) • a = a := by
  ext <;> simp

theorem glmLength_pos (a : Dvec3) (h : a ≠ 0) : 0 < glmLength a := by
  rw [glmLength]
  exact Real.sqrt_pos.mpr (dot_self_pos a h)

theorem glmLength_sq (a : Dvec3) : glmLength a * glmLength a = dot a a := by
  rw [glmLength]
  exact Real.mul_self_sqrt (dot_self_nonneg a)

theorem glmNormalize_dot_self (a : Dvec3) (h : a ≠ 0) :
    dot (glmNormalize a) (glmNormalize a) = 1 := by
  have hL := glmLength_pos a h
  rw [glmNormalize, dot_smul_left, dot_smul_right, ← mul_assoc,
    ← mul_inv, glmLength_sq]
  field_simp
  exact div_self (ne_of_gt (dot_self_pos a h))

theorem dot_glmNormalize_right (a b : Dvec3) :
    dot a (glmNormalize b) = (glmLength b)⁻¹ * dot a b := by
  rw [glmNormalize, dot_smul_right]

theorem neg_ne_zero_vec (a : Dvec3) (h : a ≠ 0) : -a ≠ 0 := by
  intro h0
  apply h
  have hx := congrArg Dvec3.x h0
  have hy := congrArg Dvec3.y h0
  have hz := congrArg Dvec3.z h0
  simp [neg_eq_zero] at hx hy hz
  ext <;> simp [hx, hy, hz]

theorem dot_add_left (a b c : Dvec3) : dot (a + b) c = dot a c + dot b c := by
  simp [dot]; ring

theorem dot_sub_left (a b c : Dvec3) : dot (a - b) c = dot a c - dot b c := by
  simp [dot]; ring

/-! ### Concrete scene objects used by the witnesses -/

/-- A material with red emissive color. -/
def matRed : Material := ⟨⟨1, 0, 0⟩, BLACK⟩

/-- A material with blue emissive color. -/
def matBlue : Material := ⟨⟨0, 0, 1⟩, BLACK⟩

/-- A gray background color. -/
def gray : RGBColor := ⟨0.75, 0.75, 0.75⟩

/-- The plane `z = 0` with normal `+z`, red material. -/
def planeZ0 : Plane := ⟨⟨0, 0, 0⟩, ⟨0, 0, 1⟩, matRed⟩

/-- The plane `z = -3` with normal `+z`, blue material. -/
def planeZneg3 : Plane := ⟨⟨0, 0, -3⟩, ⟨0, 0, 1⟩, matBlue⟩

/-- A ray from `(0,0,1)` pointing straight down: hits `planeZ0` at `t = 1`. -/
def rayDown : Ray := ⟨⟨0, 0, 1⟩, ⟨0, 0, -1⟩⟩

/-- A ray from `(0,0,-1)` (behind `planeZ0`) pointing down: `planeZ0`
reports `t = -1`, `planeZneg3` reports `t = 2`. -/
def rayBehind : Ray := ⟨⟨0, 0, -1⟩, ⟨0, 0, -1⟩⟩

/-! ### Claims -/

/-- C1: `Plane::findIntersect` returns `t = +infinity` exactly when
`dot(direction, n) ≥ 0`; when `dot(direction, n) < 0` it returns
`t = dot(a - origin, n) / dot(direction, n)` with `surfaceNormal = n`,
`interceptPoint = origin + t*direction` and the plane's material. -/
theorem plane_findIntersect_spec (p : Plane) (ray : Ray) :
    ((p.findIntersect ray).t = ⊤ ↔ 0 ≤ dot ray.direct p.n) ∧
    (dot ray.direct p.n < 0 →
      p.findIntersect ray =
        { t := ((dot (p.a - ray.origin) p.n / dot ray.direct p.n : ℝ) : EReal)
          interceptPoint := ray.origin +
            (dot (p.a - ray.origin) p.n / dot ray.direct p.n) • ray.direct
          surfaceNormal := p.n
          material := p.material
          uv := ⟨0.5, 0.5⟩ }) := by
  by_cases h : dot ray.direct p.n < 0
  · refine ⟨?_, fun _ => ?_⟩
    · simp [Plane.findIntersect, h, EReal.coe_ne_top, not_le.mpr h]
    · simp [Plane.findIntersect, h, defaultHitRecord]
  · refine ⟨?_, fun h' => absurd h' h⟩
    simp [Plane.findIntersect, h, not_lt.mp h]

/-- C1 witness: a concrete downward ray against the plane `z = 0`. -/
theorem plane_findIntersect_spec_witness :
    dot rayDown.direct planeZ0.n < 0 ∧
    Plane.findIntersect planeZ0 rayDown =
      { t := ((dot (planeZ0.a - rayDown.origin) planeZ0.n /
               dot rayDown.direct planeZ0.n : ℝ) : EReal)
        interceptPoint := rayDown.origin +
          (dot (planeZ0.a - rayDown.origin) planeZ0.n /
           dot rayDown.direct planeZ0.n) • rayDown.direct
        surfaceNormal := planeZ0.n
        material := planeZ0.material
        uv := ⟨0.5, 0.5⟩ } :=
  ⟨by norm_num [dot, planeZ0, rayDown],
   (plane_findIntersect_spec planeZ0 rayDown).2
     (by norm_num [dot, planeZ0, rayDown])⟩

/-- C5: whenever `Plane::findIntersect` registers a hit, the intercept
point lies on the plane: `dot(interceptPoint - a, n) = 0` (exact over real
arithmetic). -/
theorem plane_hitPoint_on_plane (p : Plane) (ray : Ray)
    (h : (p.findIntersect ray).t ≠ ⊤) :
    dot ((p.findIntersect ray).interceptPoint - p.a) p.n = 0 := by
  by_cases hd : dot ray.direct p.n < 0
  · have hne : dot ray.direct p.n ≠ 0 := ne_of_lt hd
    simp only [Plane.findIntersect, if_pos hd]
    rw [dot_sub_left, dot_add_left, dot_smul_left, dot_sub_left]
    field_simp
  · exact absurd (by simp [Plane.findIntersect, hd]) h

/-- C5 witness: the concrete downward ray against the plane `z = 0`. -/
theorem plane_hitPoint_on_plane_witness :
    (Plane.findIntersect planeZ0 rayDown).t ≠ ⊤ ∧
    dot ((Plane.findIntersect planeZ0 rayDown).interceptPoint - planeZ0.a)
      planeZ0.n = 0 :=
  ⟨by norm_num [Plane.findIntersect, dot, planeZ0, rayDown,
      ← EReal.coe_one, EReal.coe_ne_top],
   plane_hitPoint_on_plane planeZ0 rayDown
     (by norm_num [Plane.findIntersect, dot, planeZ0, rayDown,
       ← EReal.coe_one, EReal.coe_ne_top])⟩

/-- C7: `DirectionalLight::getLightDistance` always returns `+infinity`;
`PositionalLight::getLightDistance` (inherited by `SpotLight`) returns
the Euclidean distance between the light position and the query point,
which is finite and non-negative. -/
theorem getLightDistance_spec (d : LightData) (dir lp sd : Dvec3)
    (c : ℝ) (p : Dvec3) :
    (LightSource.directional d dir).getLightDistance p = ⊤ ∧
    (LightSource.positional d lp).getLightDistance p =
      ((glmDistance lp p : ℝ) : EReal) ∧
    (LightSource.spot d lp sd c).getLightDistance p =
      ((glmDistance lp p : ℝ) : EReal) ∧
    glmDistance lp p =
      Real.sqrt ((lp.x - p.x) ^ 2 + (lp.y - p.y) ^ 2 + (lp.z - p.z) ^ 2) ∧
    0 ≤ glmDistance lp p ∧
    (LightSource.positional d lp).getLightDistance p ≠ ⊤ ∧
    (LightSource.positional d lp).getLightDistance p ≠ ⊥ ∧
    (LightSource.spot d lp sd c).getLightDistance p ≠ ⊤ ∧
    (LightSource.spot d lp sd c).getLightDistance p ≠ ⊥ := by
  refine ⟨rfl, rfl, rfl, ?_, Real.sqrt_nonneg _,
    EReal.coe_ne_top _, EReal.coe_ne_bot _,
    EReal.coe_ne_top _, EReal.coe_ne_bot _⟩
  rw [glmDistance, glmLength]
  congr 1
  simp [dot]
  ring

/-- C9: the base (ambient-only) `LightSource`'s `getLightVector` returns
the zero vector and its `getLightDistance` returns `0.0` — neither
`+infinity` nor a Euclidean distance. -/
theorem base_light_vector_distance_spec (d : LightData) (p : Dvec3) :
    (LightSource.base d).getLightVector p = ⟨0, 0, 0⟩ ∧
    (LightSource.base d).getLightDistance p = ((0 : ℝ) : EReal) ∧
    (LightSource.base d).getLightDistance p ≠ ⊤ := by
  refine ⟨?_, rfl, ?_⟩
  · rw [show (LightSource.base d).getLightVector p =
      ⟨0.0, 0.0, 0.0⟩ from rfl]
    ext <;> norm_num
  · rw [show (LightSource.base d).getLightDistance p = ((0 : ℝ) : EReal)
      from rfl]
    exact EReal.coe_ne_top 0

/-- Every `getLocalIllumination` override evaluates to `BLACK`: the base,
`PositionalLight` and `DirectionalLight` versions return it directly, and
`SpotLight` returns either `BLACK` or a falloff multiple of the (black)
`PositionalLight` result. -/
theorem getLocalIllumination_black (l : LightSource)
    (eye pos n : Dvec3) (m : Material) (uv : Dvec2) :
    l.getLocalIllumination eye pos n m uv = BLACK := by
  cases l with
  | base d => rfl
  | positional d lp => rfl
  | directional d dir => rfl
  | spot d lp sd c =>
      simp only [LightSource.getLocalIllumination,
        spotGetLocalIllumination, positionalGetLocalIllumination]
      split
      · ext <;> simp [BLACK]
      · rfl

/-- C10: `getLocalIllumination` is independent of the `enabled` flag for
every light variant — two invocations identical except for `enabled`
return the same color (and every evaluated path returns `BLACK`). -/
theorem illumination_independent_of_enabled (l : LightSource) (b : Bool)
    (eye pos n : Dvec3) (m : Material) (uv : Dvec2) :
    (l.setEnabled b).getLocalIllumination eye pos n m uv =
      l.getLocalIllumination eye pos n m uv ∧
    l.getLocalIllumination eye pos n m uv = BLACK :=
  ⟨(getLocalIllumination_black _ _ _ _ _ _).trans
      (getLocalIllumination_black l _ _ _ _ _).symm,
   getLocalIllumination_black l _ _ _ _ _⟩

/-- C4: `SpotLight::getLocalIllumination` with
`cosAngle = dot(-normalize(lightPosition - point), spotAxis)`: inside the
cone (strict `cosAngle > cutoff`) it returns the linear falloff times the
`PositionalLight` illumination, otherwise exactly `BLACK`; at the exact
cutoff angle the falloff is `0` and the point is excluded; on the spot
axis (`cosAngle = 1`, `cutoff < 1`) the falloff equals `1`. -/
theorem spotLight_getLocalIllumination_spec (d : LightData)
    (lp sd : Dvec3) (cutoff : ℝ) (eye pos n : Dvec3) (m : Material)
    (uv : Dvec2) :
    (cutoff < dot (-(glmNormalize (lp - pos))) sd →
      (LightSource.spot d lp sd cutoff).getLocalIllumination eye pos n m uv =
        (1 - (1 - dot (-(glmNormalize (lp - pos))) sd) / (1 - cutoff)) •
          positionalGetLocalIllumination lp eye pos n m uv) ∧
    (dot (-(glmNormalize (lp - pos))) sd ≤ cutoff →
      (LightSource.spot d lp sd cutoff).getLocalIllumination eye pos n m uv =
        BLACK) ∧
    (dot (-(glmNormalize (lp - pos))) sd = cutoff → cutoff ≠ 1 →
      1 - (1 - dot (-(glmNormalize (lp - pos))) sd) / (1 - cutoff) = 0) ∧
    (∀ k : ℝ, 0 < k → dot sd sd = 1 → cutoff < 1 → pos = lp + k • sd →
      dot (-(glmNormalize (lp - pos))) sd = 1 ∧
      1 - (1 - dot (-(glmNormalize (lp - pos))) sd) / (1 - cutoff) = 1 ∧
      cutoff < dot (-(glmNormalize (lp - pos))) sd) := by
  refine ⟨fun h => ?_, fun h => ?_, fun h h1 => ?_, fun k hk hsd hc hpos => ?_⟩
  · simp only [LightSource.getLocalIllumination, spotGetLocalIllumination]
    rw [if_pos h]
  · simp only [LightSource.getLocalIllumination, spotGetLocalIllumination]
    rw [if_neg (not_lt.mpr h)]
  · rw [h]
    have h2 : (1 : ℝ) - cutoff ≠ 0 := sub_ne_zero.mpr (Ne.symm h1)
    field_simp
  · have h1 : lp - pos = (-k) • sd := by
      rw [hpos]; ext <;> simp <;> ring
    have h2 : dot ((-k) • sd) ((-k) • sd) = k ^ 2 := by
      rw [dot_smul_left, dot_smul_right, hsd]; ring
    have h3 : glmLength ((-k) • sd) = k := by
      rw [glmLength, h2, Real.sqrt_sq hk.le]
    have h4 : -(glmNormalize (lp - pos)) = sd := by
      rw [h1, glmNormalize, h3]
      ext <;> simp <;> field_simp
    rw [h4, hsd]
    refine ⟨rfl, by simp, hc⟩

/-- C4 witness: a spot light at the origin aiming down `-z` with cutoff
cosine `1/2`, queried at the on-axis point `(0,0,-2)`. -/
theorem spotLight_getLocalIllumination_spec_witness :
    (0 : ℝ) < 2 ∧ dot (⟨0, 0, -1⟩ : Dvec3) ⟨0, 0, -1⟩ = 1 ∧
    (1 / 2 : ℝ) < 1 ∧
    (⟨0, 0, -2⟩ : Dvec3) = ⟨0, 0, 0⟩ + (2 : ℝ) • ⟨0, 0, -1⟩ ∧
    (dot (-(glmNormalize ((⟨0, 0, 0⟩ : Dvec3) - ⟨0, 0, -2⟩))) ⟨0, 0, -1⟩ = 1 ∧
     1 - (1 - dot (-(glmNormalize ((⟨0, 0, 0⟩ : Dvec3) - ⟨0, 0, -2⟩)))
       ⟨0, 0, -1⟩) / (1 - 1 / 2) = 1 ∧
     (1 / 2 : ℝ) <
       dot (-(glmNormalize ((⟨0, 0, 0⟩ : Dvec3) - ⟨0, 0, -2⟩))) ⟨0, 0, -1⟩) :=
  ⟨by norm_num, by norm_num [dot], by norm_num,
   by ext <;> norm_num,
   (spotLight_getLocalIllumination_spec {} ⟨0, 0, 0⟩ ⟨0, 0, -1⟩ (1 / 2)
       ⟨0, 0, 1⟩ ⟨0, 0, -2⟩ ⟨0, 0, 1⟩ matRed ⟨0.5, 0.5⟩).2.2.2 2
     (by norm_num) (by norm_num [dot]) (by norm_num)
     (by ext <;> norm_num)⟩

/-- C6: under the precondition that `up` is not parallel to the viewing
direction, `setCameraFrame` produces a right-handed orthonormal basis
`w = normalize(-viewingDirection)`, `u = normalize(cross(up, w))`,
`v = normalize(cross(w, u))`, and the extra normalization on `v` is the
identity: `v = cross(w, u)`. -/
theorem setCameraFrame_spec (eyePos d up : Dvec3) (h : cross up d ≠ 0) :
    (setCameraFrame eyePos d up).eye = eyePos ∧
    (setCameraFrame eyePos d up).w = glmNormalize (-d) ∧
    (setCameraFrame eyePos d up).u =
      glmNormalize (cross up (setCameraFrame eyePos d up).w) ∧
    dot (setCameraFrame eyePos d up).w (setCameraFrame eyePos d up).w = 1 ∧
    dot (setCameraFrame eyePos d up).u (setCameraFrame eyePos d up).u = 1 ∧
    dot (setCameraFrame eyePos d up).v (setCameraFrame eyePos d up).v = 1 ∧
    dot (setCameraFrame eyePos d up).w (setCameraFrame eyePos d up).u = 0 ∧
    dot (setCameraFrame eyePos d up).w (setCameraFrame eyePos d up).v = 0 ∧
    dot (setCameraFrame eyePos d up).u (setCameraFrame eyePos d up).v = 0 ∧
    (setCameraFrame eyePos d up).v =
      cross (setCameraFrame eyePos d up).w (setCameraFrame eyePos d up).u ∧
    cross (setCameraFrame eyePos d up).u (setCameraFrame eyePos d up).v =
      (setCameraFrame eyePos d up).w := by
  have hd : d ≠ 0 := by
    intro h0
    exact h (by rw [h0, cross_zero_right])
  have hnd : -d ≠ 0 := neg_ne_zero_vec d hd
  have hwdef : (setCameraFrame eyePos d up).w = glmNormalize (-d) := rfl
  have hudef : (setCameraFrame eyePos d up).u =
      glmNormalize (cross up (glmNormalize (-d))) := rfl
  have hvdef : (setCameraFrame eyePos d up).v =
      glmNormalize (cross (glmNormalize (-d))
        (glmNormalize (cross up (glmNormalize (-d))))) := rfl
  have hww : dot (glmNormalize (-d)) (glmNormalize (-d)) = 1 :=
    glmNormalize_dot_self _ hnd
  have hL : 0 < glmLength (-d) := glmLength_pos _ hnd
  have hcuw : cross up (glmNormalize (-d)) ≠ 0 := by
    rw [glmNormalize, cross_smul_right]
    apply smul_ne_zero_vec _ _ (inv_ne_zero (ne_of_gt hL))
    rw [cross_neg_right]
    exact neg_ne_zero_vec _ h
  have huu : dot (glmNormalize (cross up (glmNormalize (-d))))
      (glmNormalize (cross up (glmNormalize (-d)))) = 1 :=
    glmNormalize_dot_self _ hcuw
  have hwu : dot (glmNormalize (-d))
      (glmNormalize (cross up (glmNormalize (-d)))) = 0 := by
    rw [dot_glmNormalize_right, dot_cross_right, mul_zero]
  have hXX : dot (cross (glmNormalize (-d))
        (glmNormalize (cross up (glmNormalize (-d)))))
      (cross (glmNormalize (-d))
        (glmNormalize (cross up (glmNormalize (-d))))) = 1 := by
    rw [lagrangeIdentity, hww, huu, hwu]; ring
  have hlenX : glmLength (cross (glmNormalize (-d))
      (glmNormalize (cross up (glmNormalize (-d))))) = 1 := by
    rw [glmLength, hXX, Real.sqrt_one]
  have hvX : glmNormalize (cross (glmNormalize (-d))
        (glmNormalize (cross up (glmNormalize (-d))))) =
      cross (glmNormalize (-d))
        (glmNormalize (cross up (glmNormalize (-d)))) := by
    rw [glmNormalize, hlenX, inv_one, one_smul_vec]
  refine ⟨rfl, rfl, rfl, ?_, ?_, ?_, ?_, ?_, ?_, ?_, ?_⟩
  · rw [hwdef]; exact hww
  · rw [hudef]; exact huu
  · rw [hvdef, hvX]; exact hXX
  · rw [hwdef, hudef]; exact hwu
  · rw [hwdef, hvdef, hvX]; exact dot_cross_left _ _
  · rw [hudef, hvdef, hvX]; exact dot_cross_right _ _
  · rw [hwdef, hudef, hvdef, hvX]
  · rw [hwdef, hudef, hvdef, hvX, cross_cross_same, huu,
      dot_comm, hwu]
    ext <;> simp

/-- C6 witness: viewing direction `(0,0,-1)` with up hint `(0,1,0)`. -/
theorem setCameraFrame_spec_witness :
    cross (⟨0, 1, 0⟩ : Dvec3) ⟨0, 0, -1⟩ ≠ 0 ∧
    dot (setCameraFrame ⟨0, 0, 0⟩ ⟨0, 0, -1⟩ ⟨0, 1, 0⟩).w
      (setCameraFrame ⟨0, 0, 0⟩ ⟨0, 0, -1⟩ ⟨0, 1, 0⟩).w = 1 ∧
    dot (setCameraFrame ⟨0, 0, 0⟩ ⟨0, 0, -1⟩ ⟨0, 1, 0⟩).u
      (setCameraFrame ⟨0, 0, 0⟩ ⟨0, 0, -1⟩ ⟨0, 1, 0⟩).v = 0 ∧
    (setCameraFrame ⟨0, 0, 0⟩ ⟨0, 0, -1⟩ ⟨0, 1, 0⟩).v =
      cross (setCameraFrame ⟨0, 0, 0⟩ ⟨0, 0, -1⟩ ⟨0, 1, 0⟩).w
        (setCameraFrame ⟨0, 0, 0⟩ ⟨0, 0, -1⟩ ⟨0, 1, 0⟩).u ∧
    cross (setCameraFrame ⟨0, 0, 0⟩ ⟨0, 0, -1⟩ ⟨0, 1, 0⟩).u
        (setCameraFrame ⟨0, 0, 0⟩ ⟨0, 0, -1⟩ ⟨0, 1, 0⟩).v =
      (setCameraFrame ⟨0, 0, 0⟩ ⟨0, 0, -1⟩ ⟨0, 1, 0⟩).w :=
  ⟨by simp [cross, Dvec3.ext_iff, Dvec3.zero_def],
   (setCameraFrame_spec ⟨0, 0, 0⟩ ⟨0, 0, -1⟩ ⟨0, 1, 0⟩
     (by simp [cross, Dvec3.ext_iff, Dvec3.zero_def])).2.2.2.1,
   (setCameraFrame_spec ⟨0, 0, 0⟩ ⟨0, 0, -1⟩ ⟨0, 1, 0⟩
     (by simp [cross, Dvec3.ext_iff, Dvec3.zero_def])).2.2.2.2.2.2.2.2.1,
   (setCameraFrame_spec ⟨0, 0, 0⟩ ⟨0, 0, -1⟩ ⟨0, 1, 0⟩
     (by simp [cross, Dvec3.ext_iff, Dvec3.zero_def])).2.2.2.2.2.2.2.2.2.1,
   (setCameraFrame_spec ⟨0, 0, 0⟩ ⟨0, 0, -1⟩ ⟨0, 1, 0⟩
     (by simp [cross, Dvec3.ext_iff, Dvec3.zero_def])).2.2.2.2.2.2.2.2.2.2⟩

/-- A two-plane scene with no lights and a gray background, used to show
that a negative hit parameter is accepted. -/
def sceneBehind : RayTracer :=
  ⟨[planeZneg3.toSurface, planeZ0.toSurface], [], gray⟩

/-- C8: `Plane::findIntersect` enforces no lower bound on `t`: for
`rayBehind` (origin on the far side of `planeZ0`, direction opposing its
normal) the hit parameter is `t = -1 < 0`; `findClosestIntersection`
prefers this negative-`t` record over `planeZneg3`'s record with
`t = 2 ≥ 0`, and `traceRay` shades that behind-the-origin geometry
(returning its emissive color, not the background). -/
theorem plane_negative_t_accepted :
    dot rayBehind.direct planeZ0.n < 0 ∧
    (planeZ0.findIntersect rayBehind).t = ((-1 : ℝ) : EReal) ∧
    ((-1 : ℝ) : EReal) < ((0 : ℝ) : EReal) ∧
    (planeZneg3.findIntersect rayBehind).t = ((2 : ℝ) : EReal) ∧
    ((0 : ℝ) : EReal) ≤ ((2 : ℝ) : EReal) ∧
    findClosestIntersection sceneBehind rayBehind =
      planeZ0.findIntersect rayBehind ∧
    traceRay sceneBehind rayBehind 2 = matRed.getEmisive ∧
    matRed.getEmisive ≠ gray := by
  have h0 : planeZ0.findIntersect rayBehind =
      { t := ((-1 : ℝ) : EReal)
        interceptPoint := ⟨0, 0, 0⟩
        surfaceNormal := ⟨0, 0, 1⟩
        material := matRed
        uv := ⟨0.5, 0.5⟩ } := by
    norm_num [Plane.findIntersect, planeZ0, rayBehind, dot,
      defaultHitRecord, EReal.coe_eq_coe_iff, Dvec3.ext_iff]
  have h3 : planeZneg3.findIntersect rayBehind =
      { t := ((2 : ℝ) : EReal)
        interceptPoint := ⟨0, 0, -3⟩
        surfaceNormal := ⟨0, 0, 1⟩
        material := matBlue
        uv := ⟨0.5, 0.5⟩ } := by
    norm_num [Plane.findIntersect, planeZneg3, rayBehind, dot,
      defaultHitRecord, EReal.coe_eq_coe_iff, Dvec3.ext_iff]
  have hclosest : findClosestIntersection sceneBehind rayBehind =
      planeZ0.findIntersect rayBehind := by
    rw [findClosestIntersection]
    norm_num [sceneBehind, List.foldl, Plane.toSurface, h0, h3,
      defaultHitRecord, EReal.coe_lt_top, EReal.coe_lt_coe_iff]
    rw [show (-1 : EReal) = ((-1 : ℝ) : EReal) by
      rw [EReal.coe_neg, EReal.coe_one]]
    exact EReal.coe_lt_coe_iff.mpr (by norm_num)
  refine ⟨by norm_num [dot, planeZ0, rayBehind], by rw [h0],
    by rw [EReal.coe_lt_coe_iff]; norm_num, by rw [h3],
    by rw [EReal.coe_le_coe_iff]; norm_num, hclosest, ?_, ?_⟩
  · rw [traceRay]
    simp only [hclosest, h0]
    rw [if_pos (show ((-1 : ℝ) : EReal) < ⊤ from EReal.coe_lt_top (-1))]
    rfl
  · norm_num [matRed, gray, Material.getEmisive, RGBColor.ext_iff]

/-- `1 < +infinity` in the `EReal` model of `double`. -/
theorem one_lt_top_ereal : (1 : EReal) < ⊤ := by
  rw [← EReal.coe_one]; exact EReal.coe_lt_top 1

/-- `1 ≠ +infinity` in the `EReal` model of `double`. -/
theorem one_ne_top_ereal : (1 : EReal) ≠ ⊤ := by
  rw [← EReal.coe_one]; exact EReal.coe_ne_top 1

/-- Accumulating the (all-black) local illuminations over any light list
leaves the accumulator unchanged. -/
theorem lights_foldl_black (lights : List LightSource) (c : RGBColor)
    (eye pos n : Dvec3) (m : Material) (uv : Dvec2) :
    lights.foldl
      (fun totalColor light =>
        totalColor + light.getLocalIllumination eye pos n m uv) c = c := by
  induction lights generalizing c with
  | nil => rfl
  | cons l ls ih =>
      rw [List.foldl_cons, getLocalIllumination_black]
      rw [show c + BLACK = c by ext <;> simp [BLACK]]
      exact ih c

/-- C3: `traceRay` returns the configured background color exactly when
`findClosestIntersection` reports no hit (`t = +infinity`); on a hit it
returns the hit material's emissive color plus the fold of
`getLocalIllumination(-direction, hitPoint, hitNormal, hitMaterial, hitUV)`
over the lights — which, under the shipped all-black illumination stubs,
is exactly the emissive color. -/
theorem traceRay_spec (rt : RayTracer) (ray : Ray) (lvl : ℤ) :
    ((findClosestIntersection rt ray).t = ⊤ →
      traceRay rt ray lvl = rt.defaultColor) ∧
    ((findClosestIntersection rt ray).t ≠ ⊤ →
      traceRay rt ray lvl =
        rt.lights.foldl
          (fun totalColor light =>
            totalColor +
              light.getLocalIllumination (-ray.direct)
                (findClosestIntersection rt ray).interceptPoint
                (findClosestIntersection rt ray).surfaceNormal
                (findClosestIntersection rt ray).material
                (findClosestIntersection rt ray).uv)
          (findClosestIntersection rt ray).material.getEmisive) ∧
    ((findClosestIntersection rt ray).t ≠ ⊤ →
      traceRay rt ray lvl =
        (findClosestIntersection rt ray).material.getEmisive) := by
  have hhit : (findClosestIntersection rt ray).t ≠ ⊤ →
      traceRay rt ray lvl =
        rt.lights.foldl
          (fun totalColor light =>
            totalColor +
              light.getLocalIllumination (-ray.direct)
                (findClosestIntersection rt ray).interceptPoint
                (findClosestIntersection rt ray).surfaceNormal
                (findClosestIntersection rt ray).material
                (findClosestIntersection rt ray).uv)
          (findClosestIntersection rt ray).material.getEmisive := by
    intro h
    simp only [traceRay]
    rw [if_pos (lt_top_iff_ne_top.mpr h)]
  refine ⟨fun h => ?_, hhit, fun h => ?_⟩
  · simp only [traceRay]
    rw [if_neg (by rw [h]; exact lt_irrefl ⊤)]
  · rw [hhit h, lights_foldl_black]

/-- The loop body of `RayTracer::findClosestIntersection` (RayTracer.cpp
lines 139–144): keep the new record only when its `t` is strictly
smaller. -/
def closestStep (ray : Ray) (closestHit : HitRecord) (s : Surface) :
    HitRecord :=
  let temp := s.findIntersect ray
  if temp.t < closestHit.t then temp else closestHit

/-- `findClosestIntersection` is the left fold of `closestStep` from the
default (`t = INFINITY`) record. -/
theorem findClosestIntersection_eq_foldl (rt : RayTracer) (ray : Ray) :
    findClosestIntersection rt ray =
      List.foldl (closestStep ray) defaultHitRecord rt.surfaces := rfl

/-- The `t` of the scan result is the running minimum of the surfaces'
`t` values, seeded with the accumulator's `t`. -/
theorem foldl_closestStep_t (ray : Ray) (l : List Surface)
    (acc : HitRecord) :
    (List.foldl (closestStep ray) acc l).t =
      List.foldl min acc.t (l.map fun s => (s.findIntersect ray).t) := by
  induction l generalizing acc with
  | nil => rfl
  | cons s l ih =>
      rw [List.map_cons, List.foldl_cons, List.foldl_cons, ih]
      congr 1
      by_cases h : (s.findIntersect ray).t < acc.t
      · simp only [closestStep]
        rw [if_pos h]
        exact (min_eq_right h.le).symm
      · simp only [closestStep]
        rw [if_neg h]
        exact (min_eq_left (not_lt.mp h)).symm

/-- Provenance of the scan result: it is either the untouched accumulator,
or the record of a surface at some index `i` whose `t` beat the
accumulator and (strictly) every surface before `i` — equal `t` values
never displace the incumbent, so the first minimum wins. -/
theorem foldl_closestStep_provenance (ray : Ray) (l : List Surface)
    (acc : HitRecord) :
    List.foldl (closestStep ray) acc l = acc ∨
    ∃ i : Fin l.length,
      List.foldl (closestStep ray) acc l = (l.get i).findIntersect ray ∧
      (List.foldl (closestStep ray) acc l).t < acc.t ∧
      ∀ j : Fin l.length, (j : ℕ) < (i : ℕ) →
        (List.foldl (closestStep ray) acc l).t <
          ((l.get j).findIntersect ray).t := by
  induction l generalizing acc with
  | nil => left; rfl
  | cons s l ih =>
      rw [List.foldl_cons]
      rcases ih (closestStep ray acc s) with hA | ⟨i, hEq, hLt, hPre⟩
      · by_cases hs : (s.findIntersect ray).t < acc.t
        · right
          refine ⟨⟨0, Nat.succ_pos _⟩, ?_, ?_, ?_⟩
          · rw [hA]
            simp only [closestStep]
            rw [if_pos hs]
            rfl
          · rw [hA]
            simp only [closestStep]
            rw [if_pos hs]
            exact hs
          · intro j hj
            exact absurd hj (Nat.not_lt_zero _)
        · left
          rw [hA]
          simp only [closestStep]
          rw [if_neg hs]
      · right
        have hi1 : (i : ℕ) + 1 < (s :: l).length := by
          simp only [List.length_cons]
          omega
        have hstep_pos : (s.findIntersect ray).t < acc.t →
            (closestStep ray acc s).t = (s.findIntersect ray).t := by
          intro hs
          simp only [closestStep]
          rw [if_pos hs]
        have hstep_neg : ¬(s.findIntersect ray).t < acc.t →
            closestStep ray acc s = acc := by
          intro hs
          simp only [closestStep]
          rw [if_neg hs]
        have hacc : (List.foldl (closestStep ray)
            (closestStep ray acc s) l).t < acc.t := by
          by_cases hs : (s.findIntersect ray).t < acc.t
          · exact lt_trans (hstep_pos hs ▸ hLt) hs
          · rw [hstep_neg hs] at hLt ⊢
            exact hLt
        refine ⟨⟨(i : ℕ) + 1, hi1⟩, hEq, hacc, ?_⟩
        intro j hj
        rcases j with ⟨jv, hjlen⟩
        cases jv with
        | zero =>
            show _ < (s.findIntersect ray).t
            by_cases hs : (s.findIntersect ray).t < acc.t
            · exact hstep_pos hs ▸ hLt
            · exact lt_of_lt_of_le hacc (not_lt.mp hs)
        | succ k =>
            have hk : k < (i : ℕ) := by simpa using hj
            have hklen : k < l.length := by
              simp only [List.length_cons] at hjlen
              omega
            exact hPre ⟨k, hklen⟩ hk

/-- The seeded running minimum never exceeds the seed. -/
theorem foldl_min_le_init (l : List EReal) (a : EReal) :
    List.foldl min a l ≤ a := by
  induction l generalizing a with
  | nil => exact le_refl a
  | cons b l ih =>
      rw [List.foldl_cons]
      exact le_trans (ih (min a b)) (min_le_left a b)

/-- The seeded running minimum never exceeds any list element. -/
theorem foldl_min_le_mem (l : List EReal) :
    ∀ (a x : EReal), x ∈ l → List.foldl min a l ≤ x := by
  induction l with
  | nil => intro a x hx; cases hx
  | cons b l ih =>
      intro a x hx
      rw [List.foldl_cons]
      rcases List.mem_cons.mp hx with h | h
      · subst h
        exact le_trans (foldl_min_le_init l (min a x)) (min_le_right a x)
      · exact ih (min a b) x h

/-- C2: `findClosestIntersection` returns the record whose `t` is the
minimum over all surfaces' `findIntersect` results (`+infinity` when no
surface reports a finite `t`, yielding the untouched default record), and
the returned record comes from the first surface attaining that minimum:
its `t` is strictly below every earlier surface's `t` because the scan's
comparison is strict less-than. -/
theorem findClosestIntersection_spec (rt : RayTracer) (ray : Ray) :
    (findClosestIntersection rt ray).t =
      List.foldl min ⊤ (rt.surfaces.map fun s => (s.findIntersect ray).t) ∧
    (∀ j : Fin rt.surfaces.length,
      (findClosestIntersection rt ray).t ≤
        ((rt.surfaces.get j).findIntersect ray).t) ∧
    ((∀ s ∈ rt.surfaces, (s.findIntersect ray).t = ⊤) →
      findClosestIntersection rt ray = defaultHitRecord) ∧
    ((findClosestIntersection rt ray).t ≠ ⊤ →
      ∃ i : Fin rt.surfaces.length,
        findClosestIntersection rt ray =
          (rt.surfaces.get i).findIntersect ray ∧
        ∀ j : Fin rt.surfaces.length, (j : ℕ) < (i : ℕ) →
          (findClosestIntersection rt ray).t <
            ((rt.surfaces.get j).findIntersect ray).t) := by
  have hfold := findClosestIntersection_eq_foldl rt ray
  have ht : (findClosestIntersection rt ray).t =
      List.foldl min ⊤
        (rt.surfaces.map fun s => (s.findIntersect ray).t) := by
    rw [hfold, foldl_closestStep_t]
    rfl
  refine ⟨ht, ?_, ?_, ?_⟩
  · intro j
    rw [ht]
    exact foldl_min_le_mem _ ⊤ _
      (List.mem_map_of_mem _ (List.get_mem rt.surfaces j.1 j.2))
  · intro hall
    rcases foldl_closestStep_provenance ray rt.surfaces defaultHitRecord
      with hA | ⟨i, hEq, hLt, _⟩
    · rw [hfold, hA]
    · exfalso
      have h1 : (List.foldl (closestStep ray) defaultHitRecord
          rt.surfaces).t = ⊤ := by
        rw [hEq]
        exact hall _ (List.get_mem rt.surfaces i.1 i.2)
      rw [h1] at hLt
      exact absurd hLt not_top_lt
  · intro hne
    rcases foldl_closestStep_provenance ray rt.surfaces defaultHitRecord
      with hA | ⟨i, hEq, hLt, hPre⟩
    · exact absurd (by rw [hfold, hA]; rfl) hne
    · exact ⟨i, by rw [hfold]; exact hEq,
        fun j hj => by rw [hfold]; exact hPre j hj⟩

/-- A plane coincident with `planeZ0` but carrying the blue material,
used to exercise the tie-break. -/
def planeZ0blue : Plane := ⟨⟨0, 0, 0⟩, ⟨0, 0, 1⟩, matBlue⟩

/-- A scene with two coincident planes (red first, blue second): both
report `t = 1` for `rayDown`. -/
def sceneTie : RayTracer :=
  ⟨[planeZ0.toSurface, planeZ0blue.toSurface], [], gray⟩

/-- C2 witness: in the tie scene both surfaces report `t = 1`; the scan
keeps the first surface's (red) record, and the first-minimum
characterization from the theorem applies. -/
theorem findClosestIntersection_spec_witness :
    (findClosestIntersection sceneTie rayDown).t ≠ ⊤ ∧
    (∃ i : Fin sceneTie.surfaces.length,
        findClosestIntersection sceneTie rayDown =
          (sceneTie.surfaces.get i).findIntersect rayDown ∧
        ∀ j : Fin sceneTie.surfaces.length, (j : ℕ) < (i : ℕ) →
          (findClosestIntersection sceneTie rayDown).t <
            ((sceneTie.surfaces.get j).findIntersect rayDown).t) ∧
    (planeZ0blue.findIntersect rayDown).t =
      (planeZ0.findIntersect rayDown).t ∧
    findClosestIntersection sceneTie rayDown =
      planeZ0.findIntersect rayDown :=
  ⟨by norm_num [findClosestIntersection, sceneTie, List.foldl,
      Plane.toSurface, Plane.findIntersect, planeZ0, planeZ0blue,
      rayDown, dot, defaultHitRecord, one_lt_top_ereal, one_ne_top_ereal],
   (findClosestIntersection_spec sceneTie rayDown).2.2.2
     (by norm_num [findClosestIntersection, sceneTie, List.foldl,
       Plane.toSurface, Plane.findIntersect, planeZ0, planeZ0blue,
       rayDown, dot, defaultHitRecord, one_lt_top_ereal,
       one_ne_top_ereal]),
   by norm_num [Plane.findIntersect, planeZ0, planeZ0blue, rayDown, dot],
   by norm_num [findClosestIntersection, sceneTie, List.foldl,
      Plane.toSurface, Plane.findIntersect, planeZ0, planeZ0blue,
      rayDown, dot, defaultHitRecord, one_lt_top_ereal]⟩

/-- A one-plane scene with no lights and a gray background. -/
def sceneOne : RayTracer := ⟨[planeZ0.toSurface], [], gray⟩

/-- A ray from `(0,0,1)` pointing up: misses both example planes. -/
def rayUp : Ray := ⟨⟨0, 0, 1⟩, ⟨0, 0, 1⟩⟩

/-- C3 witness: in the one-plane scene, the upward ray misses
(`t = +infinity`) and `traceRay` returns the gray background; the downward
ray hits and `traceRay` returns the red emissive color. -/
theorem traceRay_spec_witness :
    (findClosestIntersection sceneOne rayUp).t = ⊤ ∧
    traceRay sceneOne rayUp 2 = sceneOne.defaultColor ∧
    (findClosestIntersection sceneOne rayDown).t ≠ ⊤ ∧
    traceRay sceneOne rayDown 2 =
      (findClosestIntersection sceneOne rayDown).material.getEmisive :=
  ⟨by norm_num [findClosestIntersection, sceneOne, List.foldl,
      Plane.toSurface, Plane.findIntersect, planeZ0, rayUp, dot,
      defaultHitRecord],
   (traceRay_spec sceneOne rayUp 2).1
     (by norm_num [findClosestIntersection, sceneOne, List.foldl,
       Plane.toSurface, Plane.findIntersect, planeZ0, rayUp, dot,
       defaultHitRecord]),
   by norm_num [findClosestIntersection, sceneOne, List.foldl,
      Plane.toSurface, Plane.findIntersect, planeZ0, rayDown, dot,
      defaultHitRecord, one_lt_top_ereal, one_ne_top_ereal],
   (traceRay_spec sceneOne rayDown 2).2.2
     (by norm_num [findClosestIntersection, sceneOne, List.foldl,
       Plane.toSurface, Plane.findIntersect, planeZ0, rayDown, dot,
       defaultHitRecord, one_lt_top_ereal, one_ne_top_ereal])⟩

end
